import Mathlib

/-!
Shallow embedding of the in-memory movie CRUD service from `main.py`
(the complete revision of the file, the one whose pydantic `Movie` model
carries `Field` validation: `title` min_length 1, `playtime` gt 0,
`genre` min_length 2).

The Python module keeps two globals, `movie_db : list[MovieDB]` and
`movie_id_counter : int`; we gather them in a `Store` structure and make
every handler a pure function from a store (plus the request data) to an
`Except` of the HTTP error it raises and the response/new store.
Validation of request bodies is done by pydantic before the handler body
runs, so a validation failure leaves the store untouched; we model it as
an `if` guarding the whole handler body.
-/

namespace MovieApi

/-- The `MovieDB` pydantic model: a stored record. `id` is assigned by the
store; `title`, `playtime`, `genre` come from the request body. -/
structure MovieDB where
  id : Nat
  title : String
  playtime : Int
  genre : String
deriving DecidableEq, Repr

/-- The errors the handlers surface: 422 from pydantic validation,
404 from a missing id. -/
inductive ApiError where
  | validation
  | notFound
deriving DecidableEq, Repr

/-- The module-level mutable state: the list `movie_db` (in insertion
order) and the counter `movie_id_counter` (initially 0). -/
structure Store where
  movie_db : List MovieDB
  movie_id_counter : Nat
deriving DecidableEq, Repr

/-- The state at process start: empty list, counter 0. -/
def emptyStore : Store := ⟨[], 0⟩

/-- The pydantic validation on `Movie`/`MovieUpdate` request bodies:
`title` min_length 1, `playtime` gt 0, `genre` min_length 2. -/
def validMovie (title : String) (playtime : Int) (genre : String) : Bool :=
  decide (1 ≤ title.length) && decide (0 < playtime) && decide (2 ≤ genre.length)

/-- `POST /movies` (`create_movie`): after validation, increment the
counter, build the record with the new counter as id, append it, return
it. -/
def create_movie (s : Store) (title : String) (playtime : Int) (genre : String) :
    Except ApiError (MovieDB × Store) :=
  if validMovie title playtime genre then
    let newId := s.movie_id_counter + 1
    let new_movie : MovieDB := ⟨newId, title, playtime, genre⟩
    .ok (new_movie, ⟨s.movie_db ++ [new_movie], newId⟩)
  else
    .error .validation

/-- `needle in hay` on lists of characters, Python's substring test:
true iff `needle` occurs contiguously in `hay` (the empty needle always
occurs). -/
def isInfixOfChars (needle : List Char) : List Char → Bool
  | [] => needle.isEmpty
  | c :: rest => needle.isPrefixOf (c :: rest) || isInfixOfChars needle rest

/-- `str.lower()` seen as its character sequence: lower-case every
character. -/
def lowerChars (s : String) : List Char :=
  s.toList.map Char.toLower

/-- `needle.lower() in hay.lower()`: the case-insensitive substring test
the list handler applies to each filter. -/
def ciSubstr (needle hay : String) : Bool :=
  isInfixOfChars (lowerChars needle) (lowerChars hay)

/-- Python truthiness of an `Optional[str]` query parameter: `None` and
the empty string are falsy. -/
def strTruthy : Option String → Bool
  | none => false
  | some s => !s.isEmpty

/-- `GET /movies` (`get_movies`): with no truthy filter return the whole
list; otherwise filter successively by the truthy filters, and fall back
to the whole list when the filtered result is empty. -/
def get_movies (s : Store) (title genre : Option String) : List MovieDB :=
  let result := s.movie_db
  if strTruthy title || strTruthy genre then
    let filtered1 :=
      if strTruthy title then
        result.filter (fun m => ciSubstr (title.getD "") m.title)
      else result
    let filtered2 :=
      if strTruthy genre then
        filtered1.filter (fun m => ciSubstr (genre.getD "") m.genre)
      else filtered1
    if filtered2.isEmpty then result else filtered2
  else
    result

/-- `GET /movies/{movie_id}` (`get_movie_by_id`): linear scan for the
first record with the requested id; 404 when none matches. -/
def get_movie_by_id (s : Store) (movie_id : Nat) : Except ApiError MovieDB :=
  match s.movie_db.find? (fun m => m.id == movie_id) with
  | some m => .ok m
  | none => .error .notFound

/-- The loop body of `update_movie`: walk the list, and at the first
record whose id matches replace it in place with the freshly built
record, returning that record and the new list. `none` when no id
matches. -/
def updateInPlace (movie_id : Nat) (title : String) (playtime : Int) (genre : String) :
    List MovieDB → Option (MovieDB × List MovieDB)
  | [] => none
  | m :: rest =>
    if m.id == movie_id then
      let updated_movie : MovieDB := ⟨movie_id, title, playtime, genre⟩
      some (updated_movie, updated_movie :: rest)
    else
      match updateInPlace movie_id title playtime genre rest with
      | some (u, rest2) => some (u, m :: rest2)
      | none => none

/-- `PUT /movies/{movie_id}` (`update_movie`): the body is validated by
pydantic (same rules as create); then linear scan, in-place replacement
preserving the position and using the path id, 404 when absent. -/
def update_movie (s : Store) (movie_id : Nat) (title : String) (playtime : Int)
    (genre : String) : Except ApiError (MovieDB × Store) :=
  if validMovie title playtime genre then
    match updateInPlace movie_id title playtime genre s.movie_db with
    | some (u, db2) => .ok (u, ⟨db2, s.movie_id_counter⟩)
    | none => .error .notFound
  else
    .error .validation

/-- Python's `list.remove(x)`: drop the first element equal to `x`. -/
def removeFirst (x : MovieDB) : List MovieDB → List MovieDB
  | [] => []
  | m :: rest => if m = x then rest else m :: removeFirst x rest

/-- `DELETE /movies/{movie_id}` (`delete_movie`): scan for the first
record with the id; if found, `movie_db.remove` it, else 404. -/
def delete_movie (s : Store) (movie_id : Nat) : Except ApiError Store :=
  match s.movie_db.find? (fun m => m.id == movie_id) with
  | some m => .ok ⟨removeFirst m s.movie_db, s.movie_id_counter⟩
  | none => .error .notFound

/-- One client request against the service. -/
inductive Op where
  | create (title : String) (playtime : Int) (genre : String)
  | listOp (title genre : Option String)
  | getOp (movie_id : Nat)
  | updateOp (movie_id : Nat) (title : String) (playtime : Int) (genre : String)
  | deleteOp (movie_id : Nat)
deriving DecidableEq, Repr

/-- The state after serving one request: a failed request (422/404)
leaves the globals untouched, a successful one installs the new state. -/
def applyOp (s : Store) : Op → Store
  | .create t p g =>
    match create_movie s t p g with
    | .ok (_, s2) => s2
    | .error _ => s
  | .listOp _ _ => s
  | .getOp _ => s
  | .updateOp i t p g =>
    match update_movie s i t p g with
    | .ok (_, s2) => s2
    | .error _ => s
  | .deleteOp i =>
    match delete_movie s i with
    | .ok s2 => s2
    | .error _ => s

/-- The state after serving a whole sequence of requests from process
start. -/
def runOps (ops : List Op) : Store :=
  ops.foldl applyOp emptyStore

/-- Number of successful creates in a request sequence served from
state `s` (a create succeeds exactly when its body passes validation). -/
def countSucc : Store → List Op → Nat
  | _, [] => 0
  | s, op :: rest =>
    (match op with
     | .create t p g => if validMovie t p g then 1 else 0
     | _ => 0) + countSucc (applyOp s op) rest

/-- The ids of the stored records, in list (= insertion) order. -/
def idsOf (l : List MovieDB) : List Nat := l.map (fun m => m.id)

/-- Written from the spec, for comparison with `get_movies`: one
provided filter matches a field when the filter string is a
case-insensitive substring of it; an absent filter constrains nothing. -/
def providedMatch (f : Option String) (field : String) : Bool :=
  match f with
  | none => true
  | some t => ciSubstr t field

/-- Written from the spec, for comparison with `get_movies`: a record
matches when every provided filter matches the corresponding field. -/
def specFilterMatch (title genre : Option String) (m : MovieDB) : Bool :=
  providedMatch title m.title && providedMatch genre m.genre

/-- A store with two records, used to instantiate theorems with
hypotheses at concrete inputs. -/
def demoStore : Store :=
  ⟨[⟨1, "Dune", 155, "Sci-Fi"⟩, ⟨2, "Up", 96, "Animation"⟩], 2⟩

lemma isInfixOfChars_nil : ∀ l : List Char, isInfixOfChars [] l = true
  | [] => rfl
  | _ :: _ => by simp [isInfixOfChars, List.isPrefixOf]

lemma ciSubstr_empty (hay : String) : ciSubstr "" hay = true :=
  isInfixOfChars_nil (lowerChars hay)

lemma ciSubstr_of_isEmpty {needle : String} (h : needle.isEmpty = true) (hay : String) :
    ciSubstr needle hay = true := by
  rw [(String.isEmpty_iff needle).mp h]
  exact ciSubstr_empty hay

/-- One truthy-filter pass of `get_movies` computes the filter by the
corresponding provided-filter condition (an absent or empty filter
constrains nothing). -/
lemma truthy_filter_eq (f : Option String) (field : MovieDB → String) (l : List MovieDB) :
    (if strTruthy f then l.filter (fun m => ciSubstr (f.getD "") (field m)) else l)
      = l.filter (fun m => providedMatch f (field m)) := by
  match f with
  | none =>
    simp only [strTruthy, Bool.false_eq_true, if_false]
    symm
    exact List.filter_eq_self.mpr (fun m _ => rfl)
  | some t =>
    cases h : t.isEmpty with
    | true =>
      simp only [strTruthy, h, Bool.not_true, Bool.false_eq_true, if_false]
      symm
      exact List.filter_eq_self.mpr (fun m _ => ciSubstr_of_isEmpty h (field m))
    | false =>
      simp only [strTruthy, h, Bool.not_false, if_true, Option.getD_some]
      exact List.filter_congr (fun m _ => rfl)

/-- The successive truthy-filter passes of `get_movies` compute exactly
the filter by the conjunction of the provided filters. -/
lemma chain_eq_filter (title genre : Option String) (l : List MovieDB) :
    (if strTruthy genre then
       (if strTruthy title then l.filter (fun m => ciSubstr (title.getD "") m.title)
        else l).filter (fun m => ciSubstr (genre.getD "") m.genre)
     else
       (if strTruthy title then l.filter (fun m => ciSubstr (title.getD "") m.title)
        else l))
    = l.filter (specFilterMatch title genre) := by
  by_cases hg : strTruthy genre = true
  · rw [if_pos hg, truthy_filter_eq title (fun m => m.title) l]
    have hsecond := truthy_filter_eq genre (fun m => m.genre)
      (l.filter (fun m => providedMatch title m.title))
    rw [if_pos hg] at hsecond
    rw [hsecond, List.filter_filter]
    refine List.filter_congr (fun m _ => ?_)
    simp only [specFilterMatch]
    exact Bool.and_comm _ _
  · rw [if_neg hg, truthy_filter_eq title (fun m => m.title) l]
    have hgnone : ∀ m : MovieDB, providedMatch genre m.genre = true := by
      intro m
      match genre with
      | none => rfl
      | some g =>
        cases hge : g.isEmpty with
        | true => exact ciSubstr_of_isEmpty hge m.genre
        | false => exact absurd (by simp [strTruthy, hge]) hg
    refine List.filter_congr (fun m _ => ?_)
    simp only [specFilterMatch, hgnone m, Bool.and_true]

/-- `get_movies` characterised through `specFilterMatch`: it is the
filtered list, except that an empty filtered result falls back to the
whole list. -/
lemma get_movies_eq (s : Store) (title genre : Option String) :
    get_movies s title genre =
      (if (s.movie_db.filter (specFilterMatch title genre)).isEmpty then s.movie_db
       else s.movie_db.filter (specFilterMatch title genre)) := by
  simp only [get_movies]
  by_cases h : (strTruthy title || strTruthy genre) = true
  · rw [if_pos h, chain_eq_filter title genre s.movie_db]
  · have ht : strTruthy title = false := by
      cases hx : strTruthy title
      · rfl
      · exact absurd (by rw [hx]; rfl) h
    have hg : strTruthy genre = false := by
      cases hx : strTruthy genre
      · rfl
      · exact absurd (by rw [hx]; simp) h
    have hall : s.movie_db.filter (specFilterMatch title genre) = s.movie_db := by
      have hch := chain_eq_filter title genre s.movie_db
      rw [ht, hg] at hch
      simp only [Bool.false_eq_true, if_false] at hch
      exact hch.symm
    rw [if_neg h, hall, ite_self]

/-- C3: For every store state and every combination of provided
title/genre filters, if the conjunction of the provided filters matches
zero records, `get_movies` returns the entire unfiltered collection. -/
theorem list_empty_filter_falls_back (s : Store) (title genre : Option String)
    (h : s.movie_db.filter (specFilterMatch title genre) = []) :
    get_movies s title genre = s.movie_db := by
  rw [get_movies_eq, h]
  rfl

theorem list_empty_filter_falls_back_witness :
    get_movies demoStore (some "Dune") (some "zz") = demoStore.movie_db :=
  list_empty_filter_falls_back demoStore (some "Dune") (some "zz") (by decide)

/-- C4: `get_movies` with no filters returns all records in insertion
order; and with one or both filters given as non-empty strings and a
non-empty filtered result, it returns exactly the records matching every
provided filter case-insensitively, in insertion order. -/
theorem list_filters_correct (s : Store) (title genre : Option String)
    (_hT : ∀ t, title = some t → t ≠ "") (_hG : ∀ g, genre = some g → g ≠ "") :
    get_movies s none none = s.movie_db ∧
    ((title.isSome = true ∨ genre.isSome = true) →
      s.movie_db.filter (specFilterMatch title genre) ≠ [] →
      get_movies s title genre = s.movie_db.filter (specFilterMatch title genre)) := by
  refine ⟨rfl, fun _ hne => ?_⟩
  rw [get_movies_eq, if_neg]
  simpa [List.isEmpty_iff] using hne

theorem list_filters_correct_witness :
    get_movies demoStore (some "du") none
      = demoStore.movie_db.filter (specFilterMatch (some "du") none) :=
  (list_filters_correct demoStore (some "du") none
      (fun t ht => by cases ht; decide) (fun g hg => by cases hg)).2
    (Or.inl rfl) (by decide)

/-- C9: `get_movies` returns the empty list exactly when the store
itself is empty — for a non-empty store every filter combination yields
a non-empty answer. -/
theorem list_result_empty_iff (s : Store) (title genre : Option String) :
    get_movies s title genre = [] ↔ s.movie_db = [] := by
  rw [get_movies_eq]
  by_cases he : (s.movie_db.filter (specFilterMatch title genre)).isEmpty = true
  · rw [if_pos he]
  · rw [if_neg he]
    constructor
    · intro hx
      rw [hx] at he
      exact absurd rfl he
    · intro hx
      rw [hx] at he
      exact absurd rfl he

lemma string_eq_empty_iff (t : String) : t = "" ↔ t.length = 0 := by
  constructor
  · intro h
    rw [h]
    rfl
  · intro h
    cases t with
    | mk data =>
      have : data = [] := List.length_eq_zero.mp h
      rw [this]

lemma validMovie_iff (t : String) (p : Int) (g : String) :
    validMovie t p g = true ↔ (t ≠ "" ∧ 0 < p ∧ 2 ≤ g.length) := by
  have h1 : (1 ≤ t.length) ↔ t ≠ "" := by
    rw [Ne, string_eq_empty_iff]
    omega
  simp [validMovie, and_assoc, h1]

lemma validMovie_eq_false_iff (t : String) (p : Int) (g : String) :
    validMovie t p g = false ↔ (p ≤ 0 ∨ t = "" ∨ g.length < 2) := by
  rw [← Bool.not_eq_true, validMovie_iff]
  rw [not_and_or, not_and_or, not_not, not_lt, not_le]
  tauto

/-- What a successful create produces: validation passed, the record is
the request fields under the incremented counter as id, and the new
state appends it. -/
lemma create_movie_ok {s : Store} {t : String} {p : Int} {g : String} {m : MovieDB}
    {s2 : Store} (h : create_movie s t p g = .ok (m, s2)) :
    validMovie t p g = true ∧ m = ⟨s.movie_id_counter + 1, t, p, g⟩ ∧
    s2 = ⟨s.movie_db ++ [m], s.movie_id_counter + 1⟩ := by
  unfold create_movie at h
  by_cases hv : validMovie t p g = true
  · rw [if_pos hv] at h
    simp only [Except.ok.injEq, Prod.mk.injEq] at h
    obtain ⟨hm, hs⟩ := h
    refine ⟨hv, hm.symm, ?_⟩
    rw [← hs, ← hm]
  · rw [if_neg hv] at h
    exact Except.noConfusion h

/-- C5: create fails with a ValidationError exactly when playtime ≤ 0,
or the title is empty, or the genre is shorter than 2; a failed create
leaves the store untouched; a successful one appends exactly one record
carrying the given field values. -/
theorem create_validation_correct (s : Store) (t : String) (p : Int) (g : String) :
    (create_movie s t p g = .error .validation ↔ (p ≤ 0 ∨ t = "" ∨ g.length < 2)) ∧
    (create_movie s t p g = .error .validation → applyOp s (.create t p g) = s) ∧
    (∀ m s2, create_movie s t p g = .ok (m, s2) →
      s2.movie_db = s.movie_db ++ [m] ∧ m.id = s.movie_id_counter + 1 ∧
      m.title = t ∧ m.playtime = p ∧ m.genre = g ∧
      s2.movie_id_counter = s.movie_id_counter + 1) := by
  refine ⟨?_, fun he => ?_, fun m s2 h => ?_⟩
  · rw [← validMovie_eq_false_iff]
    unfold create_movie
    by_cases hv : validMovie t p g = true
    · rw [if_pos hv]
      constructor
      · intro h
        exact Except.noConfusion h
      · intro h
        rw [hv] at h
        exact Bool.noConfusion h
    · rw [if_neg hv]
      simp only [Bool.not_eq_true] at hv
      exact ⟨fun _ => hv, fun _ => rfl⟩
  · simp only [applyOp, he]
  · obtain ⟨hv, hm, hs⟩ := create_movie_ok h
    rw [hs, hm]
    exact ⟨rfl, rfl, rfl, rfl, rfl, rfl⟩

theorem create_validation_correct_witness :
    (create_movie emptyStore "Dune" 0 "Sci-Fi" = .error .validation) ∧
    applyOp emptyStore (.create "Dune" 0 "Sci-Fi") = emptyStore := by
  have h := create_validation_correct emptyStore "Dune" 0 "Sci-Fi"
  have he : create_movie emptyStore "Dune" 0 "Sci-Fi" = .error .validation :=
    h.1.mpr (Or.inl (by decide))
  exact ⟨he, h.2.1 he⟩

lemma find?_id_eq_none {i : Nat} {db : List MovieDB} (h : ∀ m ∈ db, m.id ≠ i) :
    db.find? (fun m => m.id == i) = none :=
  List.find?_eq_none.2 (fun x hx => by simp [beq_eq_false_iff_ne.mpr (h x hx)])

lemma updateInPlace_eq_none (i : Nat) (t : String) (p : Int) (g : String) :
    ∀ db : List MovieDB, (∀ m ∈ db, m.id ≠ i) → updateInPlace i t p g db = none
  | [], _ => rfl
  | m :: rest, h => by
    have hm : (m.id == i) = false :=
      beq_eq_false_iff_ne.mpr (h m (List.mem_cons_self m rest))
    have hr := updateInPlace_eq_none i t p g rest
      (fun x hx => h x (List.mem_cons_of_mem m hx))
    simp only [updateInPlace, hm, Bool.false_eq_true, if_false, hr]

/-- C6: get, update (with valid fields) and delete on an id no record
holds all fail with NotFoundError and leave the store exactly
unchanged. -/
theorem absent_id_notfound (s : Store) (i : Nat) (t : String) (p : Int) (g : String)
    (hv : validMovie t p g = true) (h : ∀ m ∈ s.movie_db, m.id ≠ i) :
    get_movie_by_id s i = .error .notFound ∧
    update_movie s i t p g = .error .notFound ∧
    delete_movie s i = .error .notFound ∧
    applyOp s (.getOp i) = s ∧
    applyOp s (.updateOp i t p g) = s ∧
    applyOp s (.deleteOp i) = s := by
  have hf := find?_id_eq_none h
  have hu := updateInPlace_eq_none i t p g s.movie_db h
  refine ⟨?_, ?_, ?_, rfl, ?_, ?_⟩
  · simp [get_movie_by_id, hf]
  · simp [update_movie, hv, hu]
  · simp [delete_movie, hf]
  · simp [applyOp, update_movie, hv, hu]
  · simp [applyOp, delete_movie, hf]

theorem absent_id_notfound_witness :
    get_movie_by_id demoStore 99 = .error .notFound ∧
    update_movie demoStore 99 "Coco" 105 "Animation" = .error .notFound ∧
    delete_movie demoStore 99 = .error .notFound ∧
    applyOp demoStore (.getOp 99) = demoStore ∧
    applyOp demoStore (.updateOp 99 "Coco" 105 "Animation") = demoStore ∧
    applyOp demoStore (.deleteOp 99) = demoStore :=
  absent_id_notfound demoStore 99 "Coco" 105 "Animation" (by decide) (by decide)

/-- Structure of a successful `updateInPlace`: the list splits at the
first record with the id, and only that record is replaced, in
position. -/
lemma updateInPlace_found (i : Nat) (t : String) (p : Int) (g : String) :
    ∀ db : List MovieDB, (∃ m ∈ db, m.id = i) →
      ∃ pre mid post, db = pre ++ mid :: post ∧ mid.id = i ∧ (∀ x ∈ pre, x.id ≠ i) ∧
        updateInPlace i t p g db
          = some (⟨i, t, p, g⟩, pre ++ (⟨i, t, p, g⟩ : MovieDB) :: post)
  | [], h => absurd h (by simp)
  | m :: rest, h => by
    by_cases hm : m.id = i
    · refine ⟨[], m, rest, rfl, hm, by simp, ?_⟩
      have hb : (m.id == i) = true := beq_iff_eq.mpr hm
      simp only [updateInPlace, hb, if_true, List.nil_append]
    · have hrest : ∃ x ∈ rest, x.id = i := by
        obtain ⟨x, hx, hxi⟩ := h
        cases List.mem_cons.mp hx with
        | inl he => exact absurd (he ▸ hxi) hm
        | inr hr => exact ⟨x, hr, hxi⟩
      obtain ⟨pre, mid, post, hdb, hmid, hpre, hup⟩ :=
        updateInPlace_found i t p g rest hrest
      refine ⟨m :: pre, mid, post, by rw [hdb]; rfl, hmid, ?_, ?_⟩
      · intro x hx
        cases List.mem_cons.mp hx with
        | inl he => exact he ▸ hm
        | inr hr => exact hpre x hr
      · have hb : (m.id == i) = false := beq_eq_false_iff_ne.mpr hm
        simp only [updateInPlace, hb, Bool.false_eq_true, if_false, hup,
          List.cons_append]

/-- C7: with valid fields and a present id, update succeeds, returns the
record made of the original id and exactly the provided field values,
keeps the record's position, and leaves the counter unchanged. -/
theorem update_replaces_in_place (s : Store) (i : Nat) (t : String) (p : Int) (g : String)
    (hv : validMovie t p g = true) (hmem : ∃ m ∈ s.movie_db, m.id = i) :
    ∃ u s2, update_movie s i t p g = .ok (u, s2) ∧
      u.id = i ∧ u.title = t ∧ u.playtime = p ∧ u.genre = g ∧
      s2.movie_id_counter = s.movie_id_counter ∧
      ∃ pre mid post, s.movie_db = pre ++ mid :: post ∧ mid.id = i ∧
        (∀ x ∈ pre, x.id ≠ i) ∧ s2.movie_db = pre ++ u :: post := by
  obtain ⟨pre, mid, post, hdb, hmid, hpre, hup⟩ :=
    updateInPlace_found i t p g s.movie_db hmem
  refine ⟨⟨i, t, p, g⟩, ⟨pre ++ (⟨i, t, p, g⟩ : MovieDB) :: post, s.movie_id_counter⟩,
    ?_, rfl, rfl, rfl, rfl, rfl, pre, mid, post, hdb, hmid, hpre, rfl⟩
  simp only [update_movie, hv, if_true, hup]

theorem update_replaces_in_place_witness :
    ∃ u s2, update_movie demoStore 2 "Coco" 105 "Animation" = .ok (u, s2) ∧
      u.id = 2 ∧ u.title = "Coco" ∧ u.playtime = 105 ∧ u.genre = "Animation" ∧
      s2.movie_id_counter = demoStore.movie_id_counter ∧
      ∃ pre mid post, demoStore.movie_db = pre ++ mid :: post ∧ mid.id = 2 ∧
        (∀ x ∈ pre, x.id ≠ 2) ∧ s2.movie_db = pre ++ u :: post :=
  update_replaces_in_place demoStore 2 "Coco" 105 "Animation" (by decide)
    ⟨⟨2, "Up", 96, "Animation"⟩, by decide, rfl⟩

/-- Structure of a successful `find?` by id: the list splits at the
first record with the id. -/
lemma find_split (i : Nat) :
    ∀ db : List MovieDB, (∃ m ∈ db, m.id = i) →
      ∃ pre m post, db = pre ++ m :: post ∧ m.id = i ∧ (∀ x ∈ pre, x.id ≠ i) ∧
        db.find? (fun x => x.id == i) = some m
  | [], h => absurd h (by simp)
  | m :: rest, h => by
    by_cases hm : m.id = i
    · refine ⟨[], m, rest, rfl, hm, by simp, ?_⟩
      have hb : (m.id == i) = true := beq_iff_eq.mpr hm
      simp only [List.find?_cons, hb, if_true]
    · have hrest : ∃ x ∈ rest, x.id = i := by
        obtain ⟨x, hx, hxi⟩ := h
        cases List.mem_cons.mp hx with
        | inl he => exact absurd (he ▸ hxi) hm
        | inr hr => exact ⟨x, hr, hxi⟩
      obtain ⟨pre, m2, post, hdb, hm2, hpre, hfind⟩ := find_split i rest hrest
      refine ⟨m :: pre, m2, post, by rw [hdb]; rfl, hm2, ?_, ?_⟩
      · intro x hx
        cases List.mem_cons.mp hx with
        | inl he => exact he ▸ hm
        | inr hr => exact hpre x hr
      · have hb : (m.id == i) = false := beq_eq_false_iff_ne.mpr hm
        simp only [List.find?_cons, hb, Bool.false_eq_true, if_false, hfind]

/-- `list.remove(x)` on a list splitting as `pre ++ x :: post` with no
copy of `x` in `pre` drops exactly that occurrence. -/
lemma removeFirst_split (m : MovieDB) :
    ∀ (pre post : List MovieDB), (∀ x ∈ pre, x ≠ m) →
      removeFirst m (pre ++ m :: post) = pre ++ post
  | [], post, _ => by simp [removeFirst]
  | y :: pre, post, h => by
    have hy : y ≠ m := h y (List.mem_cons_self y pre)
    have hr := removeFirst_split m pre post
      (fun x hx => h x (List.mem_cons_of_mem y hx))
    simp only [List.cons_append, removeFirst, if_neg hy]
    exact congrArg (y :: ·) hr

/-- C8: deleting a present id (in a store with pairwise-distinct ids,
the data-model invariant) removes exactly one record — the length drops
by one, every record with another id survives, nothing new appears —
and a subsequent get of that id fails with NotFoundError. -/
theorem delete_removes_exactly_one (s : Store) (i : Nat)
    (hdist : s.movie_db.Pairwise (fun a b => a.id ≠ b.id))
    (hmem : ∃ m ∈ s.movie_db, m.id = i) :
    ∃ s2, delete_movie s i = .ok s2 ∧
      s2.movie_db.length + 1 = s.movie_db.length ∧
      (∀ m ∈ s.movie_db, m.id ≠ i → m ∈ s2.movie_db) ∧
      (∀ m ∈ s2.movie_db, m ∈ s.movie_db) ∧
      s2.movie_id_counter = s.movie_id_counter ∧
      get_movie_by_id s2 i = .error .notFound := by
  obtain ⟨pre, m, post, hdb, hmi, hpre, hfind⟩ := find_split i s.movie_db hmem
  have hpre' : ∀ x ∈ pre, x ≠ m := fun x hx he => hpre x hx (he ▸ hmi)
  have hrm : removeFirst m s.movie_db = pre ++ post := by
    rw [hdb]
    exact removeFirst_split m pre post hpre'
  refine ⟨⟨pre ++ post, s.movie_id_counter⟩, ?_, ?_, ?_, ?_, rfl, ?_⟩
  · simp only [delete_movie, hfind, hrm]
  · rw [hdb]
    simp only [List.length_append, List.length_cons]
    omega
  · intro x hx hxi
    rw [hdb] at hx
    rcases List.mem_append.mp hx with h1 | h2
    · exact List.mem_append.mpr (Or.inl h1)
    · cases List.mem_cons.mp h2 with
      | inl he => exact absurd (he ▸ hmi) hxi
      | inr hr => exact List.mem_append.mpr (Or.inr hr)
  · intro x hx
    rw [hdb]
    rcases List.mem_append.mp hx with h1 | h2
    · exact List.mem_append.mpr (Or.inl h1)
    · exact List.mem_append.mpr (Or.inr (List.mem_cons_of_mem m h2))
  · have hpost : ∀ x ∈ post, x.id ≠ i := by
      rw [hdb] at hdist
      have h2 := (List.pairwise_append.mp hdist).2.1
      have h3 := List.pairwise_cons.mp h2
      intro x hx hxe
      exact h3.1 x hx (hmi.trans hxe.symm)
    have hnone : ∀ x ∈ pre ++ post, x.id ≠ i := by
      intro x hx
      rcases List.mem_append.mp hx with h1 | h2
      · exact hpre x h1
      · exact hpost x h2
    simp [get_movie_by_id, find?_id_eq_none hnone]

theorem delete_removes_exactly_one_witness :
    ∃ s2, delete_movie demoStore 1 = .ok s2 ∧
      s2.movie_db.length + 1 = demoStore.movie_db.length ∧
      (∀ m ∈ demoStore.movie_db, m.id ≠ 1 → m ∈ s2.movie_db) ∧
      (∀ m ∈ s2.movie_db, m ∈ demoStore.movie_db) ∧
      s2.movie_id_counter = demoStore.movie_id_counter ∧
      get_movie_by_id s2 1 = .error .notFound :=
  delete_removes_exactly_one demoStore 1 (by decide)
    ⟨⟨1, "Dune", 155, "Sci-Fi"⟩, by decide, rfl⟩

/-- What a successful update produces: the counter is untouched and the
new list is the in-place replacement. -/
lemma update_movie_ok {s : Store} {i : Nat} {t : String} {p : Int} {g : String}
    {u : MovieDB} {s2 : Store} (h : update_movie s i t p g = .ok (u, s2)) :
    s2.movie_id_counter = s.movie_id_counter ∧
    updateInPlace i t p g s.movie_db = some (u, s2.movie_db) := by
  unfold update_movie at h
  by_cases hv : validMovie t p g = true
  · rw [if_pos hv] at h
    cases hup : updateInPlace i t p g s.movie_db with
    | none =>
      rw [hup] at h
      exact Except.noConfusion h
    | some pair =>
      obtain ⟨u2, db2⟩ := pair
      rw [hup] at h
      simp only [Except.ok.injEq, Prod.mk.injEq] at h
      obtain ⟨hu, hs⟩ := h
      rw [← hs, hu]
      exact ⟨rfl, rfl⟩
  · rw [if_neg hv] at h
    exact Except.noConfusion h

/-- What a successful delete produces: the counter is untouched and the
new list is the removal of the found record. -/
lemma delete_movie_ok {s : Store} {i : Nat} {s2 : Store}
    (h : delete_movie s i = .ok s2) :
    s2.movie_id_counter = s.movie_id_counter ∧
    ∃ m, s.movie_db.find? (fun x => x.id == i) = some m ∧
      s2.movie_db = removeFirst m s.movie_db := by
  unfold delete_movie at h
  cases hf : s.movie_db.find? (fun x => x.id == i) with
  | none =>
    rw [hf] at h
    exact Except.noConfusion h
  | some m =>
    rw [hf] at h
    simp only [Except.ok.injEq] at h
    rw [← h]
    exact ⟨rfl, m, rfl, rfl⟩

/-- The counter moves by exactly 1 on a successful create and is
untouched by every other request. -/
lemma applyOp_counter (s : Store) (op : Op) :
    (applyOp s op).movie_id_counter
      = s.movie_id_counter + (match op with
        | .create t p g => if validMovie t p g then 1 else 0
        | _ => 0) := by
  cases op with
  | create t p g =>
    simp only [applyOp]
    cases hc : create_movie s t p g with
    | ok pair =>
      obtain ⟨m, s2⟩ := pair
      obtain ⟨hv, _, hs2⟩ := create_movie_ok hc
      rw [hs2, hv]
      simp
    | error e =>
      have hv : validMovie t p g = false := by
        cases hx : validMovie t p g with
        | false => rfl
        | true =>
          unfold create_movie at hc
          rw [if_pos hx] at hc
          exact Except.noConfusion hc
      rw [hv]
      simp
  | listOp t g => simp [applyOp]
  | getOp i => simp [applyOp]
  | updateOp i t p g =>
    simp only [applyOp]
    cases hc : update_movie s i t p g with
    | ok pair =>
      obtain ⟨u, s2⟩ := pair
      simpa using (update_movie_ok hc).1
    | error e => simp
  | deleteOp i =>
    simp only [applyOp]
    cases hc : delete_movie s i with
    | ok s2 => simpa using (delete_movie_ok hc).1
    | error e => simp

/-- Over a run, the counter grows by exactly the number of successful
creates. -/
lemma foldl_counter : ∀ (ops : List Op) (s : Store),
    (List.foldl applyOp s ops).movie_id_counter = s.movie_id_counter + countSucc s ops
  | [], s => by simp [countSucc]
  | op :: rest, s => by
    have ih := foldl_counter rest (applyOp s op)
    simp only [List.foldl_cons, countSucc, ih, applyOp_counter]
    cases op <;> (simp; try omega)

lemma create_movie_ok_id {s : Store} {t : String} {p : Int} {g : String} {m : MovieDB}
    {s2 : Store} (h : create_movie s t p g = .ok (m, s2)) :
    m.id = s.movie_id_counter + 1 := by
  obtain ⟨_, hm, _⟩ := create_movie_ok h
  rw [hm]

/-- C1: after any request sequence from the empty store, a successful
create returns a record whose id is 1 + the number of prior successful
creates. -/
theorem create_id_counts_priors (ops : List Op) (t : String) (p : Int) (g : String)
    (m : MovieDB) (s2 : Store) (h : create_movie (runOps ops) t p g = .ok (m, s2)) :
    m.id = 1 + countSucc emptyStore ops := by
  have hid := create_movie_ok_id h
  rw [hid, runOps, foldl_counter ops emptyStore]
  simp [emptyStore]
  omega

/-- A run with one valid create, one invalid create, and a delete. -/
def c1ops : List Op :=
  [.create "Dune" 155 "Sci-Fi", .create "Bad" 0 "XY", .deleteOp 1]

theorem create_id_counts_priors_witness :
    create_movie (runOps c1ops) "Up" 96 "Animation"
      = .ok (⟨2, "Up", 96, "Animation"⟩, ⟨[⟨2, "Up", 96, "Animation"⟩], 2⟩) ∧
    (⟨2, "Up", 96, "Animation"⟩ : MovieDB).id = 1 + countSucc emptyStore c1ops :=
  ⟨by rfl,
   create_id_counts_priors c1ops "Up" 96 "Animation" ⟨2, "Up", 96, "Animation"⟩
     ⟨[⟨2, "Up", 96, "Animation"⟩], 2⟩ (by rfl)⟩

/-- An in-place update leaves the sequence of ids unchanged. -/
lemma updateInPlace_ids (i : Nat) (t : String) (p : Int) (g : String) :
    ∀ {db : List MovieDB} {u : MovieDB} {db2 : List MovieDB},
      updateInPlace i t p g db = some (u, db2) → idsOf db2 = idsOf db
  | [], _, _, h => Option.noConfusion h
  | m :: rest, u, db2, h => by
    by_cases hm : (m.id == i) = true
    · simp only [updateInPlace, hm, if_true, Option.some.injEq, Prod.mk.injEq] at h
      obtain ⟨_, hdb2⟩ := h
      rw [← hdb2]
      simp only [idsOf, List.map_cons]
      rw [beq_iff_eq.mp hm]
    · have hb : (m.id == i) = false := by
        cases hx : (m.id == i) with
        | false => rfl
        | true => exact absurd hx hm
      simp only [updateInPlace, hb, Bool.false_eq_true, if_false] at h
      cases hrec : updateInPlace i t p g rest with
      | none =>
        rw [hrec] at h
        exact Option.noConfusion h
      | some pair =>
        obtain ⟨u2, rest2⟩ := pair
        rw [hrec] at h
        simp only [Option.some.injEq, Prod.mk.injEq] at h
        obtain ⟨_, hdb2⟩ := h
        rw [← hdb2]
        simp only [idsOf, List.map_cons]
        have := updateInPlace_ids i t p g hrec
        simp only [idsOf] at this
        rw [this]

/-- Removing an element yields a sublist. -/
lemma removeFirst_sublist (x : MovieDB) :
    ∀ db : List MovieDB, (removeFirst x db).Sublist db
  | [] => List.Sublist.refl []
  | m :: rest => by
    simp only [removeFirst]
    by_cases hm : m = x
    · rw [if_pos hm]
      exact List.sublist_cons_self m rest
    · rw [if_neg hm]
      exact List.Sublist.cons₂ m (removeFirst_sublist x rest)

/-- One step preserves the data-model invariant: ids strictly increase
along the list and never exceed the counter. -/
lemma applyOp_inv (s : Store) (op : Op)
    (h1 : (idsOf s.movie_db).Pairwise (· < ·))
    (h2 : ∀ n ∈ idsOf s.movie_db, n ≤ s.movie_id_counter) :
    (idsOf (applyOp s op).movie_db).Pairwise (· < ·) ∧
    ∀ n ∈ idsOf (applyOp s op).movie_db, n ≤ (applyOp s op).movie_id_counter := by
  cases op with
  | create t p g =>
    cases hc : create_movie s t p g with
    | ok pair =>
      obtain ⟨m, s2⟩ := pair
      obtain ⟨hv, hm, hs2⟩ := create_movie_ok hc
      simp only [applyOp, hc]
      rw [hs2, hm]
      constructor
      · simp only [idsOf, List.map_append, List.map_cons, List.map_nil]
        rw [List.pairwise_append]
        refine ⟨h1, List.pairwise_singleton _ _, ?_⟩
        intro a ha b hb
        simp only [List.mem_singleton] at hb
        rw [hb]
        exact Nat.lt_succ_of_le (h2 a ha)
      · intro n hn
        simp only [idsOf, List.map_append, List.map_cons, List.map_nil,
          List.mem_append, List.mem_singleton] at hn
        rcases hn with hn | hn
        · exact Nat.le_succ_of_le (h2 n hn)
        · rw [hn]
    | error e =>
      simp only [applyOp, hc]
      exact ⟨h1, h2⟩
  | listOp t g => exact ⟨h1, h2⟩
  | getOp i => exact ⟨h1, h2⟩
  | updateOp i t p g =>
    cases hc : update_movie s i t p g with
    | ok pair =>
      obtain ⟨u, s2⟩ := pair
      obtain ⟨hcnt, hup⟩ := update_movie_ok hc
      have hids := updateInPlace_ids i t p g hup
      simp only [applyOp, hc]
      rw [hids, hcnt]
      exact ⟨h1, h2⟩
    | error e =>
      simp only [applyOp, hc]
      exact ⟨h1, h2⟩
  | deleteOp i =>
    cases hc : delete_movie s i with
    | ok s2 =>
      obtain ⟨hcnt, m, _, hdb⟩ := delete_movie_ok hc
      have hsub : (idsOf s2.movie_db).Sublist (idsOf s.movie_db) := by
        rw [hdb]
        exact (removeFirst_sublist m s.movie_db).map _
      simp only [applyOp, hc]
      rw [hcnt]
      exact ⟨h1.sublist hsub, fun n hn => h2 n (hsub.subset hn)⟩
    | error e =>
      simp only [applyOp, hc]
      exact ⟨h1, h2⟩

/-- The invariant holds after any run from an invariant state. -/
lemma foldl_inv : ∀ (ops : List Op) (s : Store),
    (idsOf s.movie_db).Pairwise (· < ·) →
    (∀ n ∈ idsOf s.movie_db, n ≤ s.movie_id_counter) →
    (idsOf (List.foldl applyOp s ops).movie_db).Pairwise (· < ·) ∧
    ∀ n ∈ idsOf (List.foldl applyOp s ops).movie_db,
      n ≤ (List.foldl applyOp s ops).movie_id_counter
  | [], s, h1, h2 => ⟨h1, h2⟩
  | op :: rest, s, h1, h2 => by
    obtain ⟨h1s, h2s⟩ := applyOp_inv s op h1 h2
    simpa using foldl_inv rest (applyOp s op) h1s h2s

/-- The counter never decreases along a run. -/
lemma foldl_counter_mono (ops : List Op) (s : Store) :
    s.movie_id_counter ≤ (List.foldl applyOp s ops).movie_id_counter := by
  rw [foldl_counter ops s]
  exact Nat.le_add_right _ _

/-- C2: in every reachable state, ids are strictly increasing along the
collection's (insertion) order — hence pairwise distinct; every stored
id is at most the counter; the counter never decreases along any
extension of the run; and any id that was ever stored after any prefix
of the run is strictly below the id the next successful create assigns
— so an id is never reused, even after deletion. -/
theorem reachable_store_invariants (ops : List Op) :
    (runOps ops).movie_db.Pairwise (fun a b => a.id < b.id) ∧
    (∀ m ∈ (runOps ops).movie_db, m.id ≤ (runOps ops).movie_id_counter) ∧
    (∀ p, List.IsPrefix p ops →
      (runOps p).movie_id_counter ≤ (runOps ops).movie_id_counter) ∧
    (∀ p m2, List.IsPrefix p ops → m2 ∈ (runOps p).movie_db →
      ∀ t pl g m s2, create_movie (runOps ops) t pl g = .ok (m, s2) →
        m2.id < m.id) := by
  have hinv := foldl_inv ops emptyStore (by simp [idsOf, emptyStore])
    (by simp [idsOf, emptyStore])
  have hmono : ∀ p, List.IsPrefix p ops →
      (runOps p).movie_id_counter ≤ (runOps ops).movie_id_counter := by
    intro p hp
    obtain ⟨q, hq⟩ := hp
    rw [← hq]
    simp only [runOps, List.foldl_append]
    exact foldl_counter_mono q (List.foldl applyOp emptyStore p)
  refine ⟨?_, ?_, hmono, ?_⟩
  · have := hinv.1
    simp only [idsOf] at this
    exact List.pairwise_map.mp this
  · intro m hm
    exact hinv.2 m.id (List.mem_map_of_mem _ hm)
  · intro p m2 hp hm2 t pl g m s2 hc
    have hbound : m2.id ≤ (runOps p).movie_id_counter := by
      have hinvp := foldl_inv p emptyStore (by simp [idsOf, emptyStore])
        (by simp [idsOf, emptyStore])
      exact hinvp.2 m2.id (List.mem_map_of_mem _ hm2)
    have hfresh := create_movie_ok_id hc
    rw [hfresh]
    exact Nat.lt_succ_of_le (le_trans hbound (hmono p hp))

/-- A run with two creates and a delete, and a prefix of it. -/
def c2ops : List Op :=
  [.create "Dune" 155 "Sci-Fi", .create "Up" 96 "Animation", .deleteOp 1]

theorem reachable_store_invariants_witness :
    (runOps c2ops).movie_db.Pairwise (fun a b => a.id < b.id) ∧
    (runOps [Op.create "Dune" 155 "Sci-Fi"]).movie_id_counter
      ≤ (runOps c2ops).movie_id_counter ∧
    (⟨1, "Dune", 155, "Sci-Fi"⟩ : MovieDB).id
      < (⟨3, "Coco", 105, "Animation"⟩ : MovieDB).id := by
  have h := reachable_store_invariants c2ops
  refine ⟨h.1, h.2.2.1 [Op.create "Dune" 155 "Sci-Fi"]
    ⟨[Op.create "Up" 96 "Animation", Op.deleteOp 1], rfl⟩, ?_⟩
  exact h.2.2.2 [Op.create "Dune" 155 "Sci-Fi"] ⟨1, "Dune", 155, "Sci-Fi"⟩
    ⟨[Op.create "Up" 96 "Animation", Op.deleteOp 1], rfl⟩ (by decide)
    "Coco" 105 "Animation" ⟨3, "Coco", 105, "Animation"⟩
    ⟨[⟨2, "Up", 96, "Animation"⟩, ⟨3, "Coco", 105, "Animation"⟩], 3⟩ (by rfl)

end MovieApi
